import Mathlib

/-!
Verification of the core module `quijy/core.py`: quantum-object helpers built
on dense/sparse complex matrices.  Matrices are embedded shallowly as a shape
(row and column counts), a total entry function, and a storage tag
(`sparse`).  Entries live in an arbitrary commutative ring, standing for the
complex numbers; all definitions are executable at computable instances such
as the integers.
-/

/-- A dense-or-sparse rectangular matrix: row count, column count, entries,
and the storage tag (`sparse = true` models compressed-row storage). -/
structure QMat (α : Type) where
  rows : ℕ
  cols : ℕ
  entry : ℕ → ℕ → α
  sparse : Bool

variable {α : Type}

/-- Source function `eye(n, sparse)`: the n×n identity, dense or sparse. -/
def eye [Zero α] [One α] (n : ℕ) (sparse : Bool) : QMat α :=
  ⟨n, n, fun i j => if i = j then 1 else 0, sparse⟩

/-- Source function `krnd2(a, b)`: the dense fast-path Kronecker product.
The source fills the block `x[i*p:(i+1)*p, j*q:(j+1)*q]` with `a[i,j]*b`
(where `p, q = b.shape`); position `(r, c)` hence holds
`a[r/p, c/q] * b[r%p, c%q]`, which is the entry function used here.
The output is a dense `np.matrix`. -/
def krnd2 [Mul α] (a b : QMat α) : QMat α :=
  ⟨a.rows * b.rows, a.cols * b.cols,
   fun r c => a.entry (r / b.rows) (c / b.cols) * b.entry (r % b.rows) (c % b.cols),
   false⟩

/-- Modelled from the spec: `sp.kron(a, b, 'csr')`, the sparse Kronecker
primitive of the MatrixBackend collaborator (spec §2, assumed correct).  It
computes the Kronecker product with compressed-row (sparse) output. -/
def spKron [Mul α] (a b : QMat α) : QMat α :=
  ⟨a.rows * b.rows, a.cols * b.cols,
   fun r c => a.entry (r / b.rows) (c / b.cols) * b.entry (r % b.rows) (c % b.cols),
   true⟩

/-- The binary step of `kron`: dispatch on storage, sparse primitive if either
operand is sparse, dense fast path otherwise. -/
def kron2 [Mul α] (a b : QMat α) : QMat α :=
  if a.sparse || b.sparse then spKron a b else krnd2 a b

/-- Source function `kron(*ps)` with `ps = a :: rest`: right-associative recursive reduction
`(a * (b * (c * ...)))` from the source. -/
def kronL [Mul α] (a : QMat α) : List (QMat α) → QMat α
  | [] => a
  | b :: rest => kron2 a (kronL b rest)

/-- The variadic `kron(*ps)`.  Calling it with no argument reads `ps[0]` and
raises `IndexError`, modelled by `none`. -/
def kronV [Mul α] : List (QMat α) → Option (QMat α)
  | [] => none
  | a :: rest => some (kronL a rest)

/-- Result type of `kronpow`: the Python scalar `1` (for `pwr = 0`) or a
matrix. -/
inductive ScalOrMat (α : Type) where
  | scal : ℤ → ScalOrMat α
  | mat : QMat α → ScalOrMat α

/-- Source function `kronpow(a, pwr)`: `1` if `pwr == 0`, `a` if `pwr == 1`,
else `kron(*[a]*pwr)`. -/
def kronpow [Mul α] (a : QMat α) (pwr : ℕ) : Option (ScalOrMat α) :=
  if pwr = 0 then some (ScalOrMat.scal 1)
  else if pwr = 1 then some (ScalOrMat.mat a)
  else Option.map ScalOrMat.mat (kronV (List.replicate pwr a))

/-- The `pwr`-fold Kronecker power written as an explicit right-nested chain:
`kronFoldR a n` is the tensor product of `n + 1` copies of `a`. -/
def kronFoldR [Mul α] (a : QMat α) : ℕ → QMat α
  | 0 => a
  | n + 1 => kron2 a (kronFoldR a n)

/-- Slice product `np.prod(dims[lo:hi])`: product of the slice of `dims` from `lo`
(inclusive) to `hi` (exclusive); an empty slice has product 1. -/
def prodSlice (dims : List ℕ) (lo hi : ℕ) : ℕ :=
  ((dims.drop lo).take (hi - lo)).prod

/-- Tail product `np.prod(dims[lo:])`: product of the tail slice of `dims` from `lo` on. -/
def prodFrom (dims : List ℕ) (lo : ℕ) : ℕ :=
  (dims.drop lo).prod

/-- The loop of `eyepad`, plus its two trailing statements.  Invoked with the
accumulator `b`, the current selected index `cur` (initially `inds[0]`) and
the remaining selected indices.  Each iteration appends `a` and then an
identity sized to the dimensions strictly between `cur` and the next index;
after the loop `a` is appended once more, then an identity sized to the
dimensions strictly after the last index. -/
def eyepadLoop [Mul α] [Zero α] [One α] (a : QMat α) (dims : List ℕ) (sp : Bool) :
    QMat α → ℕ → List ℕ → QMat α
  | b, cur, [] =>
      kron2 (kron2 b a) (eye (prodFrom dims (cur + 1)) sp)
  | b, cur, nxt :: rest =>
      eyepadLoop a dims sp
        (kron2 (kron2 b a) (eye (prodSlice dims (cur + 1) nxt) sp)) nxt rest

/-- Source function `eyepad(a, dims, inds, sparse)`.  Sparsity is inferred
from `a` when not given; the accumulator starts as an identity sized to the
dimensions strictly before `inds[0]`.  Reading `inds[0]` from an empty `inds`
raises `IndexError`, modelled by `none`. -/
def eyepad [Mul α] [Zero α] [One α] (a : QMat α) (dims : List ℕ) (inds : List ℕ)
    (sparse : Option Bool) : Option (QMat α) :=
  match inds with
  | [] => none
  | i0 :: rest =>
      let sp := sparse.getD a.sparse
      some (eyepadLoop a dims sp (eye (prodSlice dims 0 i0) sp) i0 rest)

/-- Source predicate `isket(p)`: column-vector check `p.shape[0] > 1 and p.shape[1] == 1`. -/
def isket (p : QMat α) : Bool :=
  decide (1 < p.rows) && decide (p.cols = 1)

/-- Source predicate `isbra(p)`: row-vector check `p.shape[0] == 1 and p.shape[1] > 1`. -/
def isbra (p : QMat α) : Bool :=
  decide (p.rows = 1) && decide (1 < p.cols)

/-- Source predicate `isop(p)`: square-matrix check `m == n and m > 1`. -/
def isop (p : QMat α) : Bool :=
  decide (p.rows = p.cols) && decide (1 < p.rows)

/-- The linear (row-major) enumeration of entries used by the reshapes in
`qonvert`: element `k` of the unraveled matrix. -/
def linEntry (p : QMat α) (k : ℕ) : α :=
  p.entry (k / p.cols) (k % p.cols)

/-- The `'ket'` branch of `qonvert`: reshape to a column of size
`rows * cols`, preserving linear order. -/
def ketReshape (p : QMat α) : QMat α :=
  ⟨p.rows * p.cols, 1, fun i _ => linEntry p i, p.sparse⟩

/-- The `'bra'` branch of `qonvert`: reshape to a row and conjugate. -/
def braReshape [Star α] (p : QMat α) : QMat α :=
  ⟨1, p.rows * p.cols, fun _ j => star (linEntry p j), p.sparse⟩

/-- The outer product `qonvert(p,'k') * qonvert(p,'k').H` built by the
`'dop'` branch of `qonvert` for non-operator input: the backend matrix
product of the ket with its conjugate transpose, so entry `(i, j)` is
`v[i] * conj(v[j])` for the unraveled vector `v`. -/
def outerSelf [Mul α] [Star α] (p : QMat α) : QMat α :=
  ⟨p.rows * p.cols, p.rows * p.cols,
   fun i j => linEntry p i * star (linEntry p j), p.sparse⟩

/-- Conversion `sp.csr_matrix(p)`: conversion to compressed-row storage. -/
def toSparse (p : QMat α) : QMat α :=
  { p with sparse := true }

/-- The `TypeError` raised by `qonvert` when its `nrmlz` flag is set: the
parameter shadows the module-level `nrmlz` function, so `nrmlz(p)` calls a
bool. -/
def nrmlzShadowError : String :=
  "TypeError: bool object is not callable (parameter nrmlz shadows the nrmlz function)"

/-- Source function `qonvert(data, qtype, sparse, nrmlz)`, acting on the
matrix `p = np.matrix(data)`.  The branch `if nrmlz: p = nrmlz(p)` calls the
boolean parameter `nrmlz` (which shadows the module-level function of the
same name), raising `TypeError`; this is modelled by `Except.error`. -/
def qonvert [Mul α] [Star α] (data : QMat α) (qtype : Option String)
    (sparse : Bool) (nrmlz : Bool) : Except String (QMat α) :=
  let p := data
  let p :=
    match qtype with
    | none => p
    | some qt =>
        if qt = "k" ∨ qt = "ket" then ketReshape p
        else if qt = "b" ∨ qt = "bra" then braReshape p
        else if (qt = "p" ∨ qt = "d" ∨ qt = "r" ∨ qt = "rho" ∨ qt = "op" ∨ qt = "dop")
                ∧ isop p = false then outerSelf p
        else p
  if nrmlz then Except.error nrmlzShadowError
  else Except.ok (if sparse then toSparse p else p)

/-- String constant for the density-operator conversion type. -/
def dopStr : String :=
  "dop"

/-- Numerical equality of matrices: same shape and the same entries at every
in-range position (storage tags may differ). -/
def MatEq (A B : QMat α) : Prop :=
  A.rows = B.rows ∧ A.cols = B.cols ∧
    ∀ i j, i < A.rows → j < A.cols → A.entry i j = B.entry i j

/-- Numerical equality against an optional matrix (`False` on `none`). -/
def OME (o : Option (QMat α)) (B : QMat α) : Prop :=
  match o with
  | none => False
  | some A => MatEq A B

/-- Row count of an optional matrix. -/
def rowsO : Option (QMat α) → Option ℕ
  | none => none
  | some m => some m.rows

/-- Column count of an optional matrix. -/
def colsO : Option (QMat α) → Option ℕ
  | none => none
  | some m => some m.cols

/-- Entry `(0,0)` of a `qonvert` result (`none` on error). -/
def entry00E : Except String (QMat α) → Option α
  | Except.error _ => none
  | Except.ok m => some (m.entry 0 0)

/-- A complex number over an ordered base: real and imaginary parts.  The
base ring stands for the floating-point reals of the source. -/
structure Cx (β : Type) where
  re : β
  im : β
deriving DecidableEq

variable {β : Type}

/-- The ordering numpy applies to complex values in `x.max()` / `x.min()`:
lexicographic on (real part, imaginary part). -/
def lexLt [LinearOrder β] (u v : Cx β) : Prop :=
  u.re < v.re ∨ (u.re = v.re ∧ u.im < v.im)

instance [LinearOrder β] (u v : Cx β) : Decidable (lexLt u v) := by
  unfold lexLt; infer_instance

/-- Binary maximum under the numpy complex ordering. -/
def lexMax [LinearOrder β] (u v : Cx β) : Cx β :=
  if lexLt u v then v else u

/-- Binary minimum under the numpy complex ordering. -/
def lexMin [LinearOrder β] (u v : Cx β) : Cx β :=
  if lexLt v u then v else u

/-- The entries of a matrix in row-major scan order. -/
def entriesFlat (x : QMat β) : List β :=
  ((List.range x.rows).map (fun i => (List.range x.cols).map (fun j => x.entry i j))).flatten

/-- Maximum `x.max()`: the largest entry under the numpy complex ordering. -/
def cmax [LinearOrder β] (x : QMat (Cx β)) : Cx β :=
  (entriesFlat x).foldl lexMax (x.entry 0 0)

/-- Minimum `x.min()`: the smallest entry under the numpy complex ordering. -/
def cmin [LinearOrder β] (x : QMat (Cx β)) : Cx β :=
  (entriesFlat x).foldl lexMin (x.entry 0 0)

/-- Squared complex magnitude `re² + im²`. -/
def normSq [Mul β] [Add β] (z : Cx β) : β :=
  z.re * z.re + z.im * z.im

/-- Componentwise complex subtraction. -/
def csub [Sub β] (u v : Cx β) : Cx β :=
  ⟨u.re - v.re, u.im - v.im⟩

/-- Squared range `abs(x.max() - x.min())` squared: the squared value range of `chop`.
`abs` of a complex value is its magnitude; squares are used so that the
definition stays inside the ring operations (`|u| < |v|` iff `u² < v²` for
the nonnegative quantities compared by `chop`). -/
def chopRngeSq [LinearOrderedCommRing β] (x : QMat (Cx β)) : β :=
  normSq (csub (cmax x) (cmin x))

/-- Source function `chop(x, tol)`: compute `minm = abs(x.max() - x.min()) * tol`
once, then zero every real part with `|re| < minm` and every imaginary part
with `|im| < minm` (sparse storage additionally drops explicit zeros, which
is invisible to the entry function).  The comparison `|v| < minm` is encoded
without square roots as `0 ≤ tol ∧ v² < rnge² * tol²`, which is equivalent:
for `tol < 0` the threshold `minm` is negative and nothing is below it, and
for `0 ≤ tol` both sides of the strict inequality are nonnegative, so
comparing squares is faithful. -/
def chop [LinearOrderedCommRing β] (x : QMat (Cx β)) (tol : β) : QMat (Cx β) :=
  let rngeSq := chopRngeSq x
  { x with
    entry := fun i j =>
      let z := x.entry i j
      ⟨if 0 ≤ tol ∧ z.re * z.re < rngeSq * (tol * tol) then 0 else z.re,
       if 0 ≤ tol ∧ z.im * z.im < rngeSq * (tol * tol) then 0 else z.im⟩ }

/-- A concrete 2×2 integer matrix `[[1, 2], [3, 4]]`, dense. -/
def X2 : QMat ℤ :=
  ⟨2, 2, fun i j => if i = 0 ∧ j = 0 then 1 else if i = 0 ∧ j = 1 then 2
                    else if i = 1 ∧ j = 0 then 3 else 4, false⟩

/-- A concrete 1×2 integer matrix `[[5, 7]]`, sparse-tagged. -/
def S1 : QMat ℤ :=
  ⟨1, 2, fun _ j => if j = 0 then 5 else 7, true⟩

/-- A concrete 1×1 integer matrix `[[2]]`, dense. -/
def M1 : QMat ℤ :=
  ⟨1, 1, fun _ _ => 2, false⟩

/-- A concrete 1×3 matrix of integer complex values
`[[0, 10, 8+6i]]`, dense: the input refuting the entry-magnitude reading of
`chop`. -/
def XC : QMat (Cx ℤ) :=
  ⟨1, 3, fun _ j => if j = 0 then ⟨0, 0⟩ else if j = 1 then ⟨10, 0⟩ else ⟨8, 6⟩, false⟩

lemma kron2_rows [Mul α] (a b : QMat α) : (kron2 a b).rows = a.rows * b.rows := by
  unfold kron2 spKron krnd2; split <;> rfl

lemma kron2_cols [Mul α] (a b : QMat α) : (kron2 a b).cols = a.cols * b.cols := by
  unfold kron2 spKron krnd2; split <;> rfl

lemma kron2_entry [Mul α] (a b : QMat α) (r c : ℕ) :
    (kron2 a b).entry r c =
      a.entry (r / b.rows) (c / b.cols) * b.entry (r % b.rows) (c % b.cols) := by
  unfold kron2 spKron krnd2; split <;> rfl

lemma blockDivMod (i k p : ℕ) (hk : k < p) :
    (i * p + k) / p = i ∧ (i * p + k) % p = k := by
  have hp : 0 < p := Nat.lt_of_le_of_lt (Nat.zero_le k) hk
  constructor
  · rw [show i * p + k = p * i + k by ring, Nat.mul_add_div hp,
        Nat.div_eq_of_lt hk, Nat.add_zero]
  · rw [show i * p + k = p * i + k by ring, Nat.mul_add_mod, Nat.mod_eq_of_lt hk]

/-- C10: calling `eyepad` with an empty `inds` sequence fails (the source
reads `inds[0]` and raises `IndexError`) instead of returning the full
identity: non-empty `inds` is an unstated precondition of `eyepad`. -/
theorem c10_eyepad_empty_inds [Mul α] [Zero α] [One α] (a : QMat α) (dims : List ℕ)
    (sparse : Option Bool) : eyepad a dims [] sparse = none :=
  rfl

/-- C5 (code bug): for every input, `qonvert` with the normalize flag set
raises `TypeError` instead of returning a normalized result, because the
boolean parameter `nrmlz` shadows the module-level `nrmlz` function and
`nrmlz(p)` calls the bool. -/
theorem c5_qonvert_nrmlz_raises [Mul α] [Star α] (data : QMat α)
    (qtype : Option String) (sparse : Bool) :
    qonvert data qtype sparse true = Except.error nrmlzShadowError := by
  unfold qonvert
  simp

/-- C6 counterexample: on the 1×1 matrix `M1` the claim asserts that both
`isket` and `isbra` return true, but the code returns false for both (all
three predicates require a dimension strictly greater than 1). -/
theorem c6_counterexample :
    M1.rows = 1 ∧ M1.cols = 1 ∧ ¬(isket M1 = true ∧ isbra M1 = true) := by
  decide

/-- C6 (amended): for every matrix, at most one of `isket`, `isbra`, `isop`
returns true; on a 1×1 matrix all three return false (no degenerate case in
which both ket and bra hold). -/
theorem c6_amended (p : QMat α) :
    (isket p).toNat + (isbra p).toNat + (isop p).toNat ≤ 1 ∧
    (p.rows = 1 ∧ p.cols = 1 →
      isket p = false ∧ isbra p = false ∧ isop p = false) := by
  constructor
  · unfold isket isbra isop
    by_cases h1 : 1 < p.rows <;> by_cases h2 : p.cols = 1 <;>
      by_cases h3 : p.rows = 1 <;> by_cases h4 : 1 < p.cols <;>
      by_cases h5 : p.rows = p.cols <;> simp [h1, h2, h3, h4, h5]
  · rintro ⟨hr, hc⟩
    unfold isket isbra isop
    simp [hr, hc]

/-- C6 witness: the amended statement evaluated on the concrete 1×1 matrix. -/
theorem c6_witness :
    (isket M1).toNat + (isbra M1).toNat + (isop M1).toNat ≤ 1 ∧
    (isket M1 = false ∧ isbra M1 = false ∧ isop M1 = false) :=
  ⟨(c6_amended M1).1, (c6_amended M1).2 ⟨rfl, rfl⟩⟩

/-- C7 counterexample: the 1×1 matrix `[[2]]` is square (rows = cols), yet
`qonvert(·, 'dop')` builds the outer product (because `isop` also requires
size > 1), returning `[[4]]` rather than the input as given. -/
theorem c7_counterexample :
    M1.rows = M1.cols ∧
    entry00E (qonvert M1 (some dopStr) false false) = some 4 ∧
    M1.entry 0 0 = 2 := by
  decide

/-- C7 (amended): for every input that is square with size strictly greater
than 1, `qonvert(data, qtype='dop')` returns the input matrix as given,
never constructing an outer product. -/
theorem c7_amended [Mul α] [Star α] (data : QMat α)
    (hsq : data.rows = data.cols) (hgt : 1 < data.rows) :
    qonvert data (some dopStr) false false = Except.ok data := by
  have h3 : isop data = true := by
    unfold isop; rw [hsq]; simp [hsq ▸ hgt]
  show Except.ok (if ("dop" = "p" ∨ "dop" = "d" ∨ "dop" = "r" ∨ "dop" = "rho" ∨
      "dop" = "op" ∨ "dop" = "dop") ∧ isop data = false then outerSelf data
      else data) = Except.ok data
  rw [if_neg]
  rintro ⟨-, hfalse⟩
  rw [h3] at hfalse
  cases hfalse

/-- C7 witness: the amended statement evaluated on a concrete 2×2 matrix. -/
theorem c7_witness : qonvert X2 (some dopStr) false false = Except.ok X2 :=
  c7_amended X2 rfl (by decide)

/-- C3: whenever either operand is sparse, the two-argument `kron` returns
the sparse Kronecker primitive's compressed-row result, which is numerically
equal to the dense fast path's result. -/
theorem c3_kron_sparse_dispatch [Mul α] (a b : QMat α)
    (h : a.sparse = true ∨ b.sparse = true) :
    kronV [a, b] = some (spKron a b) ∧ (spKron a b).sparse = true ∧
    MatEq (spKron a b) (krnd2 a b) := by
  refine ⟨?_, rfl, rfl, rfl, fun i j _ _ => rfl⟩
  have e : kronV [a, b] = some (kron2 a b) := rfl
  rw [e]
  unfold kron2
  rcases h with h | h <;> simp [h]

/-- C3 witness: the dispatch evaluated on a concrete sparse × dense pair. -/
theorem c3_witness :
    kronV [S1, X2] = some (spKron S1 X2) ∧ (spKron S1 X2).sparse = true ∧
    MatEq (spKron S1 X2) (krnd2 S1 X2) :=
  c3_kron_sparse_dispatch S1 X2 (Or.inl rfl)

/-- C4: for dense `a` (m×n) and `b` (p×q), `krnd2` produces a dense
(m·p)×(n·q) matrix whose (i,j) block of size p×q is `a[i,j] * b`, and the
two-argument `kron` on dense inputs returns exactly this fast-path result. -/
theorem c4_krnd2_block [Mul α] (a b : QMat α)
    (hsa : a.sparse = false) (hsb : b.sparse = false) (i j k l : ℕ)
    (hi : i < a.rows) (hj : j < a.cols) (hk : k < b.rows) (hl : l < b.cols) :
    (krnd2 a b).rows = a.rows * b.rows ∧ (krnd2 a b).cols = a.cols * b.cols ∧
    (krnd2 a b).sparse = false ∧
    (krnd2 a b).entry (i * b.rows + k) (j * b.cols + l) = a.entry i j * b.entry k l ∧
    kronV [a, b] = some (krnd2 a b) := by
  refine ⟨rfl, rfl, rfl, ?_, ?_⟩
  · show a.entry ((i * b.rows + k) / b.rows) ((j * b.cols + l) / b.cols) *
        b.entry ((i * b.rows + k) % b.rows) ((j * b.cols + l) % b.cols) = _
    rw [(blockDivMod i k b.rows hk).1, (blockDivMod i k b.rows hk).2,
        (blockDivMod j l b.cols hl).1, (blockDivMod j l b.cols hl).2]
  · have e : kronV [a, b] = some (kron2 a b) := rfl
    rw [e]
    unfold kron2
    simp [hsa, hsb]

/-- C4 witness: the block identity evaluated at a concrete dense pair and a
concrete in-range block position. -/
theorem c4_witness :
    (krnd2 X2 M1).rows = X2.rows * M1.rows ∧ (krnd2 X2 M1).cols = X2.cols * M1.cols ∧
    (krnd2 X2 M1).sparse = false ∧
    (krnd2 X2 M1).entry (1 * M1.rows + 0) (0 * M1.cols + 0) = X2.entry 1 0 * M1.entry 0 0 ∧
    kronV [X2, M1] = some (krnd2 X2 M1) :=
  c4_krnd2_block X2 M1 rfl rfl 1 0 0 0 (by decide) (by decide) (by decide) (by decide)

lemma kronL_replicate [Mul α] (a : QMat α) :
    ∀ n, kronL a (List.replicate n a) = kronFoldR a n := by
  intro n
  induction n with
  | zero => rfl
  | succ m ih =>
      rw [List.replicate_succ]
      show kron2 a (kronL a (List.replicate m a)) = kronFoldR a (m + 1)
      rw [ih]
      rfl

/-- C8: `kronpow(a, 0)` is the scalar 1 (not an identity matrix),
`kronpow(a, 1)` is `a` unchanged, and for `pwr ≥ 2` the result is the
`pwr`-fold Kronecker product `kron(a, ..., a)`; in particular
`kronpow(a, 2) = kron(a, a)`. -/
theorem c8_kronpow [Mul α] (a : QMat α) :
    kronpow a 0 = some (ScalOrMat.scal 1) ∧
    kronpow a 1 = some (ScalOrMat.mat a) ∧
    (∀ pwr, 2 ≤ pwr → kronpow a pwr = some (ScalOrMat.mat (kronFoldR a (pwr - 1)))) ∧
    kronpow a 2 = some (ScalOrMat.mat (kron2 a a)) := by
  refine ⟨rfl, rfl, ?_, rfl⟩
  intro pwr hp
  obtain ⟨m, rfl⟩ : ∃ m, pwr = m + 2 := ⟨pwr - 2, by omega⟩
  unfold kronpow
  rw [if_neg (by omega), if_neg (by omega), List.replicate_succ]
  show some (ScalOrMat.mat (kronL a (List.replicate (m + 1) a))) = _
  rw [kronL_replicate]
  norm_num

/-- C8 witness: `kronpow` evaluated at a concrete matrix and power 3. -/
theorem c8_witness : kronpow X2 3 = some (ScalOrMat.mat (kronFoldR X2 2)) :=
  (c8_kronpow X2).2.2.1 3 (by norm_num)

lemma matEq_of_entry {A B : QMat α} (h1 : A.rows = B.rows) (h2 : A.cols = B.cols)
    (h : ∀ i j, i < A.rows → j < A.cols → A.entry i j = B.entry i j) : MatEq A B :=
  ⟨h1, h2, h⟩

lemma MatEq.rows_eq {A B : QMat α} (h : MatEq A B) : A.rows = B.rows := h.1

lemma MatEq.cols_eq {A B : QMat α} (h : MatEq A B) : A.cols = B.cols := h.2.1

lemma MatEq.entry_eq {A B : QMat α} (h : MatEq A B) {i j : ℕ}
    (hi : i < A.rows) (hj : j < A.cols) : A.entry i j = B.entry i j :=
  h.2.2 i j hi hj

lemma matEq_refl (A : QMat α) : MatEq A A :=
  ⟨rfl, rfl, fun _ _ _ _ => rfl⟩

lemma matEq_symm {A B : QMat α} (h : MatEq A B) : MatEq B A :=
  ⟨h.rows_eq.symm, h.cols_eq.symm, fun i j hi hj =>
    (h.entry_eq (h.rows_eq ▸ hi) (h.cols_eq ▸ hj)).symm⟩

lemma matEq_trans {A B C : QMat α} (h1 : MatEq A B) (h2 : MatEq B C) : MatEq A C :=
  ⟨h1.rows_eq.trans h2.rows_eq, h1.cols_eq.trans h2.cols_eq, fun i j hi hj =>
    (h1.entry_eq hi hj).trans (h2.entry_eq (h1.rows_eq ▸ hi) (h1.cols_eq ▸ hj))⟩

lemma div_flatten (r p q : ℕ) : r / q / p = r / (p * q) := by
  rw [Nat.div_div_eq_div_mul, Nat.mul_comm]

lemma mod_div_flatten (r p q : ℕ) : r % (p * q) / q = r / q % p := by
  rw [Nat.mul_comm, Nat.mod_mul_right_div_self]

lemma mod_mod_flatten (r p q : ℕ) : r % (p * q) % q = r % q :=
  Nat.mod_mod_of_dvd r (dvd_mul_left q p)

lemma kron2_assoc_entry [Semigroup α] (A B C : QMat α) (r s : ℕ) :
    (kron2 (kron2 A B) C).entry r s = (kron2 A (kron2 B C)).entry r s := by
  rw [kron2_entry (kron2 A B) C, kron2_entry A B, kron2_entry A (kron2 B C),
      kron2_entry B C, kron2_rows, kron2_cols]
  simp only [div_flatten, mod_div_flatten, mod_mod_flatten]
  exact mul_assoc ..

lemma kron2_assoc [Semigroup α] (A B C : QMat α) :
    MatEq (kron2 (kron2 A B) C) (kron2 A (kron2 B C)) := by
  refine matEq_of_entry ?_ ?_ ?_
  · simp [kron2_rows, Nat.mul_assoc]
  · simp [kron2_cols, Nat.mul_assoc]
  · intro i j _ _
    exact kron2_assoc_entry A B C i j

lemma kron2_congr_left [Mul α] {A A' : QMat α} (B : QMat α) (h : MatEq A A') :
    MatEq (kron2 A B) (kron2 A' B) := by
  refine matEq_of_entry ?_ ?_ ?_
  · rw [kron2_rows, kron2_rows, h.rows_eq]
  · rw [kron2_cols, kron2_cols, h.cols_eq]
  · intro i j hi hj
    rw [kron2_rows] at hi
    rw [kron2_cols] at hj
    have hbr : 0 < B.rows := by
      rcases Nat.eq_zero_or_pos B.rows with h0 | h0
      · rw [h0, Nat.mul_zero] at hi; omega
      · exact h0
    have hbc : 0 < B.cols := by
      rcases Nat.eq_zero_or_pos B.cols with h0 | h0
      · rw [h0, Nat.mul_zero] at hj; omega
      · exact h0
    rw [kron2_entry, kron2_entry]
    congr 1
    exact h.entry_eq ((Nat.div_lt_iff_lt_mul hbr).2 hi) ((Nat.div_lt_iff_lt_mul hbc).2 hj)

lemma kron2_congr_right [Mul α] (A : QMat α) {B B' : QMat α} (h : MatEq B B') :
    MatEq (kron2 A B) (kron2 A B') := by
  refine matEq_of_entry ?_ ?_ ?_
  · rw [kron2_rows, kron2_rows, h.rows_eq]
  · rw [kron2_cols, kron2_cols, h.cols_eq]
  · intro i j hi hj
    rw [kron2_rows] at hi
    rw [kron2_cols] at hj
    have hbr : 0 < B.rows := by
      rcases Nat.eq_zero_or_pos B.rows with h0 | h0
      · rw [h0, Nat.mul_zero] at hi; omega
      · exact h0
    have hbc : 0 < B.cols := by
      rcases Nat.eq_zero_or_pos B.cols with h0 | h0
      · rw [h0, Nat.mul_zero] at hj; omega
      · exact h0
    rw [kron2_entry, kron2_entry, ← h.rows_eq, ← h.cols_eq]
    congr 1
    exact h.entry_eq (Nat.mod_lt _ hbr) (Nat.mod_lt _ hbc)

lemma kron2_eye_one [MulOneClass α] [Zero α] (s : Bool) (X : QMat α) :
    MatEq (kron2 (eye 1 s) X) X := by
  refine matEq_of_entry ?_ ?_ ?_
  · rw [kron2_rows]; exact Nat.one_mul _
  · rw [kron2_cols]; exact Nat.one_mul _
  · intro i j hi hj
    rw [kron2_rows] at hi
    rw [kron2_cols] at hj
    have hi' : i < X.rows := by simpa [eye] using hi
    have hj' : j < X.cols := by simpa [eye] using hj
    rw [kron2_entry, Nat.div_eq_of_lt hi', Nat.div_eq_of_lt hj',
        Nat.mod_eq_of_lt hi', Nat.mod_eq_of_lt hj']
    show (if (0 : ℕ) = 0 then (1 : α) else 0) * X.entry i j = X.entry i j
    rw [if_pos rfl, one_mul]

lemma matEq_eye_tag [Zero α] [One α] (n : ℕ) (s1 s2 : Bool) :
    MatEq (eye n s1 : QMat α) (eye n s2) :=
  ⟨rfl, rfl, fun _ _ _ _ => rfl⟩

/-- C1: for every 2×2 matrix `X`, `eyepad(X, dims=[2,2,2,2], inds=[0,2])` is
numerically equal to `kron(X, eye(2), X, eye(2))`: a copy of `X` at each
selected subsystem, identities elsewhere (the canonical worked example). -/
theorem c1_eyepad_example [Monoid α] [Zero α] (X : QMat α)
    (h1 : X.rows = 2) (h2 : X.cols = 2) :
    OME (eyepad X [2, 2, 2, 2] [0, 2] none) (kronL X [eye 2 false, X, eye 2 false]) := by
  have e : eyepad X [2, 2, 2, 2] [0, 2] none =
      some (kron2 (kron2 (kron2 (kron2 (eye 1 X.sparse) X) (eye 2 X.sparse)) X)
        (eye 2 X.sparse)) := rfl
  rw [e]
  show MatEq
    (kron2 (kron2 (kron2 (kron2 (eye 1 X.sparse) X) (eye 2 X.sparse)) X) (eye 2 X.sparse))
    (kron2 X (kron2 (eye 2 false) (kron2 X (eye 2 false))))
  have s1 := kron2_assoc (kron2 (kron2 (eye 1 X.sparse) X) (eye 2 X.sparse)) X
    (eye 2 X.sparse)
  have s2 := kron2_congr_left (kron2 X (eye 2 X.sparse))
    (kron2_assoc (eye 1 X.sparse) X (eye 2 X.sparse))
  have s3 := kron2_assoc (eye 1 X.sparse) (kron2 X (eye 2 X.sparse))
    (kron2 X (eye 2 X.sparse))
  have s4 := kron2_eye_one (α := α) X.sparse
    (kron2 (kron2 X (eye 2 X.sparse)) (kron2 X (eye 2 X.sparse)))
  have s5 := kron2_assoc X (eye 2 X.sparse) (kron2 X (eye 2 X.sparse))
  have t1 : MatEq (eye 2 X.sparse : QMat α) (eye 2 false) := matEq_eye_tag 2 X.sparse false
  have t2 := kron2_congr_right X t1
  have t3 := kron2_congr_left (kron2 X (eye 2 X.sparse)) t1
  have t4 := kron2_congr_right (eye 2 false) t2
  have s6 := kron2_congr_right X (matEq_trans t3 t4)
  exact matEq_trans s1 (matEq_trans s2 (matEq_trans s3 (matEq_trans s4
    (matEq_trans s5 s6))))

/-- C1 witness: the worked example evaluated on a concrete 2×2 matrix. -/
theorem c1_witness :
    OME (eyepad X2 [2, 2, 2, 2] [0, 2] none) (kronL X2 [eye 2 false, X2, eye 2 false]) :=
  c1_eyepad_example X2 rfl rfl

lemma prodSlice_zero (l : List ℕ) (k : ℕ) : prodSlice l 0 k = (l.take k).prod := by
  unfold prodSlice
  rw [List.drop_zero, Nat.sub_zero]

lemma prod_take_getD_drop (l : List ℕ) (k : ℕ) (h : k < l.length) :
    (l.take k).prod * l.getD k 0 * (l.drop (k + 1)).prod = l.prod := by
  conv_rhs => rw [← List.take_append_drop (k + 1) l]
  rw [List.prod_append, List.take_succ, List.prod_append,
      List.getElem?_eq_getElem h, List.getD_eq_getElem l 0 h]
  simp [Nat.mul_assoc]

lemma prod_take_step (l : List ℕ) (cur nxt : ℕ) (h1 : cur < l.length) (h2 : cur < nxt) :
    (l.take cur).prod * l.getD cur 0 * ((l.drop (cur + 1)).take (nxt - (cur + 1))).prod =
      (l.take nxt).prod := by
  conv_rhs => rw [show nxt = (cur + 1) + (nxt - (cur + 1)) by omega, List.take_add]
  rw [List.prod_append, List.take_succ, List.prod_append,
      List.getElem?_eq_getElem h1, List.getD_eq_getElem l 0 h1]
  simp [Nat.mul_assoc]

lemma eyepadLoop_size [Mul α] [Zero α] [One α] (a : QMat α) (dims : List ℕ) (sp : Bool)
    (hsq : a.cols = a.rows) (rest : List ℕ) :
    ∀ (b : QMat α) (cur : ℕ),
      b.rows = (dims.take cur).prod → b.cols = (dims.take cur).prod →
      cur < dims.length → dims.getD cur 0 = a.rows →
      (∀ i ∈ rest, i < dims.length) → (∀ i ∈ rest, dims.getD i 0 = a.rows) →
      List.Chain' (fun x y => x < y) (cur :: rest) →
      (eyepadLoop a dims sp b cur rest).rows = dims.prod ∧
      (eyepadLoop a dims sp b cur rest).cols = dims.prod := by
  induction rest with
  | nil =>
      intro b cur hbr hbc hcl hcd _ _ _
      constructor
      · show (kron2 (kron2 b a) (eye (prodFrom dims (cur + 1)) sp)).rows = dims.prod
        rw [kron2_rows, kron2_rows, hbr]
        show (dims.take cur).prod * a.rows * prodFrom dims (cur + 1) = dims.prod
        rw [← hcd]
        exact prod_take_getD_drop dims cur hcl
      · show (kron2 (kron2 b a) (eye (prodFrom dims (cur + 1)) sp)).cols = dims.prod
        rw [kron2_cols, kron2_cols, hbc, hsq]
        show (dims.take cur).prod * a.rows * prodFrom dims (cur + 1) = dims.prod
        rw [← hcd]
        exact prod_take_getD_drop dims cur hcl
  | cons nxt rest ih =>
      intro b cur hbr hbc hcl hcd hrl hrd hch
      have hcn : cur < nxt := (List.chain'_cons.1 hch).1
      have hch' : List.Chain' (fun x y => x < y) (nxt :: rest) := (List.chain'_cons.1 hch).2
      have hnl : nxt < dims.length := hrl nxt (List.mem_cons_self nxt rest)
      have hnd : dims.getD nxt 0 = a.rows := hrd nxt (List.mem_cons_self nxt rest)
      have hb' : (kron2 (kron2 b a) (eye (prodSlice dims (cur + 1) nxt) sp)).rows =
          (dims.take nxt).prod := by
        rw [kron2_rows, kron2_rows, hbr]
        show (dims.take cur).prod * a.rows * prodSlice dims (cur + 1) nxt = (dims.take nxt).prod
        rw [← hcd]
        exact prod_take_step dims cur nxt hcl hcn
      have hb'' : (kron2 (kron2 b a) (eye (prodSlice dims (cur + 1) nxt) sp)).cols =
          (dims.take nxt).prod := by
        rw [kron2_cols, kron2_cols, hbc, hsq]
        show (dims.take cur).prod * a.rows * prodSlice dims (cur + 1) nxt = (dims.take nxt).prod
        rw [← hcd]
        exact prod_take_step dims cur nxt hcl hcn
      exact ih (kron2 (kron2 b a) (eye (prodSlice dims (cur + 1) nxt) sp)) nxt hb' hb'' hnl hnd
        (fun i hi => hrl i (List.mem_cons_of_mem nxt hi))
        (fun i hi => hrd i (List.mem_cons_of_mem nxt hi)) hch'

/-- C2: for a square operator `a` and any valid `dims`/`inds` (non-empty,
strictly ascending, in range, with `dims[i]` matching `a`'s row count at every
selected index), `eyepad(a, dims, inds)` is square of total dimension equal
to the product of all entries of `dims`. -/
theorem c2_eyepad_total_dimension [Mul α] [Zero α] [One α] (a : QMat α)
    (dims inds : List ℕ) (sparse : Option Bool)
    (hsq : a.rows = a.cols) (hne : inds ≠ [])
    (hasc : List.Chain' (fun x y => x < y) inds)
    (hrange : ∀ i ∈ inds, i < dims.length)
    (hdim : ∀ i ∈ inds, dims.getD i 0 = a.rows) :
    rowsO (eyepad a dims inds sparse) = some dims.prod ∧
    colsO (eyepad a dims inds sparse) = some dims.prod := by
  obtain ⟨i0, rest, rfl⟩ := List.exists_cons_of_ne_nil hne
  have e : eyepad a dims (i0 :: rest) sparse =
      some (eyepadLoop a dims (sparse.getD a.sparse)
        (eye (prodSlice dims 0 i0) (sparse.getD a.sparse)) i0 rest) := rfl
  have hsz := eyepadLoop_size a dims (sparse.getD a.sparse) hsq.symm rest
    (eye (prodSlice dims 0 i0) (sparse.getD a.sparse)) i0
    (by show prodSlice dims 0 i0 = (dims.take i0).prod; exact prodSlice_zero dims i0)
    (by show prodSlice dims 0 i0 = (dims.take i0).prod; exact prodSlice_zero dims i0)
    (hrange i0 (List.mem_cons_self i0 rest))
    (hdim i0 (List.mem_cons_self i0 rest))
    (fun i hi => hrange i (List.mem_cons_of_mem i0 hi))
    (fun i hi => hdim i (List.mem_cons_of_mem i0 hi)) hasc
  rw [e]
  exact ⟨by show some (eyepadLoop a dims _ _ i0 rest).rows = some dims.prod; rw [hsz.1],
        by show some (eyepadLoop a dims _ _ i0 rest).cols = some dims.prod; rw [hsz.2]⟩

/-- C2 witness: a concrete 2×2 operator embedded into dims `[2,2,2]` at index
1 gives an 8×8 result. -/
theorem c2_witness :
    rowsO (eyepad X2 [2, 2, 2] [1] none) = some 8 ∧
    colsO (eyepad X2 [2, 2, 2] [1] none) = some 8 :=
  c2_eyepad_total_dimension X2 [2, 2, 2] [1] none rfl (by simp)
    (by simp) (by simp) (by simp [X2])

/-- C9 counterexample: with `x = [[0, 10, 8+6i]]` and `tol = 1`, the entry
`8+6i` has magnitude 10 = `tol * range` and so is *not* below the threshold,
yet `chop` changes it (it zeroes the imaginary part because `|im| = 6` alone
is below the threshold): `chop` does not select entries by entry magnitude. -/
theorem c9_counterexample :
    (0 : ℤ) < 1 ∧
    chopRngeSq XC * ((1 : ℤ) * 1) ≤ normSq (XC.entry 0 2) ∧
    (chop XC 1).entry 0 2 ≠ XC.entry 0 2 := by
  decide

/-- C9 (amended): `chop(x, tol)` with positive `tol` preserves shape and
storage and treats the two components of each entry independently: it zeroes
the real part of exactly those entries whose real part is below `tol` times
the value range in magnitude (compared in squared form), leaving it unchanged
otherwise, and likewise for the imaginary part.  (The source additionally
mutates its argument in place and returns the same reference, which value
semantics does not distinguish.) -/
theorem c9_chop_componentwise {β : Type} [LinearOrderedCommRing β]
    (x : QMat (Cx β)) (tol : β) (htol : 0 < tol) :
    (chop x tol).rows = x.rows ∧ (chop x tol).cols = x.cols ∧
    (chop x tol).sparse = x.sparse ∧
    ∀ i j,
      ((x.entry i j).re * (x.entry i j).re < chopRngeSq x * (tol * tol) →
        ((chop x tol).entry i j).re = 0) ∧
      (chopRngeSq x * (tol * tol) ≤ (x.entry i j).re * (x.entry i j).re →
        ((chop x tol).entry i j).re = (x.entry i j).re) ∧
      ((x.entry i j).im * (x.entry i j).im < chopRngeSq x * (tol * tol) →
        ((chop x tol).entry i j).im = 0) ∧
      (chopRngeSq x * (tol * tol) ≤ (x.entry i j).im * (x.entry i j).im →
        ((chop x tol).entry i j).im = (x.entry i j).im) := by
  refine ⟨rfl, rfl, rfl, ?_⟩
  intro i j
  refine ⟨?_, ?_, ?_, ?_⟩
  · intro hlt
    show (if 0 ≤ tol ∧ (x.entry i j).re * (x.entry i j).re < chopRngeSq x * (tol * tol)
          then 0 else (x.entry i j).re) = 0
    rw [if_pos ⟨le_of_lt htol, hlt⟩]
  · intro hge
    show (if 0 ≤ tol ∧ (x.entry i j).re * (x.entry i j).re < chopRngeSq x * (tol * tol)
          then 0 else (x.entry i j).re) = (x.entry i j).re
    rw [if_neg]
    rintro ⟨-, hlt⟩
    exact absurd hge (not_le.2 hlt)
  · intro hlt
    show (if 0 ≤ tol ∧ (x.entry i j).im * (x.entry i j).im < chopRngeSq x * (tol * tol)
          then 0 else (x.entry i j).im) = 0
    rw [if_pos ⟨le_of_lt htol, hlt⟩]
  · intro hge
    show (if 0 ≤ tol ∧ (x.entry i j).im * (x.entry i j).im < chopRngeSq x * (tol * tol)
          then 0 else (x.entry i j).im) = (x.entry i j).im
    rw [if_neg]
    rintro ⟨-, hlt⟩
    exact absurd hge (not_le.2 hlt)

/-- C9 witness: the amended statement evaluated on the concrete matrix: the
real part of `10` survives (its square reaches the threshold) and the
imaginary part of `8+6i` is zeroed. -/
theorem c9_witness :
    ((chop XC 1).entry 0 1).re = (XC.entry 0 1).re ∧
    ((chop XC 1).entry 0 2).im = 0 :=
  ⟨((c9_chop_componentwise XC 1 (by decide)).2.2.2 0 1).2.1 (by decide),
   ((c9_chop_componentwise XC 1 (by decide)).2.2.2 0 2).2.2.1 (by decide)⟩
